import Mathlib

/-!
Verification of the calendar-utility functions of `src/core-js-dates-tasks.js`.

The embedding models ECMAScript `Date` values by their epoch coordinates:
an instant is an integer count of milliseconds since 1970-01-01T00:00:00Z,
a calendar date is a `Civil` triple (proleptic Gregorian year, month 1-12,
day 1-31), and the two are related by `daysFromCivil` / `civilFromDays`
(the standard Gregorian epoch-day conversion, written with `Int` division;
all divisors are positive, so `/` and `%` are exactly the ECMAScript
`Math.floor` division and nonnegative remainder used by `Date`).

The environment's timezone offset is modelled as zero (`tzOffsetMinutes`):
the specification's stated timezone policy is UTC, so the local-time
accessors (`getDay`, `getDate`, `getMinutes`, ...) coincide with their UTC
counterparts.  The legacy two-digit-year remapping of the `Date(y, m, d)`
constructor is outside the specification's documented year domain
(four-digit years) and is not modelled; theorems that feed a caller-supplied
year into the constructor therefore carry a `100 ≤ y` hypothesis.
-/

/-- A proleptic-Gregorian calendar date: year, month (1-12), day (1-31). -/
structure Civil where
  y : Int
  m : Int
  d : Int
deriving DecidableEq, Repr

/-- Gregorian leap-year predicate (also the body of the source's `isLeapYear`). -/
def isLeapGregorian (y : Int) : Bool :=
  y % 400 = 0 || (y % 4 = 0 && y % 100 ≠ 0)

/-- Length of a Gregorian month, used by the reference definitions and by the
model of `Date`'s day-of-month normalization. -/
def daysInMonthGregorian (y m : Int) : Int :=
  if m = 2 then (if isLeapGregorian y then 29 else 28)
  else if m = 4 ∨ m = 6 ∨ m = 9 ∨ m = 11 then 30
  else 31

/-- Epoch day number (days since 1970-01-01) of a civil date with month in
1-12.  Standard era/year-of-era/day-of-year Gregorian conversion. -/
def daysFromCivil (y m d : Int) : Int :=
  let y' := if m ≤ 2 then y - 1 else y
  let era := y' / 400
  let yoe := y' - era * 400
  let doy := (153 * (if 2 < m then m - 3 else m + 9) + 2) / 5 + d - 1
  let doe := yoe * 365 + yoe / 4 - yoe / 100 + doy
  era * 146097 + doe - 719468

/-- Civil date of an epoch day number (inverse Gregorian conversion). -/
def civilFromDays (z0 : Int) : Civil :=
  let z := z0 + 719468
  let era := z / 146097
  let doe := z - era * 146097
  let yoe := (doe - doe / 1460 + doe / 36524 - doe / 146096) / 365
  let y := yoe + era * 400
  let doy := doe - (365 * yoe + yoe / 4 - yoe / 100)
  let mp := (5 * doy + 2) / 153
  let d := doy - (153 * mp + 2) / 5 + 1
  let m := if mp < 10 then mp + 3 else mp - 9
  ⟨if m ≤ 2 then y + 1 else y, m, d⟩

/-- Day of week of an epoch day number, ECMAScript convention
(0 = Sunday ... 6 = Saturday); day 0 (1970-01-01) is a Thursday. -/
def weekdayOfDay (n : Int) : Int := (n + 4) % 7

/-- Milliseconds per day (the source's `millisecondsInDay`). -/
def msPerDay : Int := 86400000

/-- The environment's timezone offset in minutes.  The embedding models a UTC
environment (the specification's timezone policy), so the offset is zero and
local-time accessors agree with UTC accessors. -/
def tzOffsetMinutes : Int := 0

/-- Local clock milliseconds of an instant (adds the environment offset). -/
def localMs (t : Int) : Int := t + tzOffsetMinutes * 60000

/-- Epoch day number holding an instant, in local time (`Math.floor` of the
millisecond count divided by a day). -/
def jsDayNumber (t : Int) : Int := localMs t / msPerDay

/-- Model of `Date.prototype.getDay` (local day of week) on an instant. -/
def jsGetDay (t : Int) : Int := weekdayOfDay (jsDayNumber t)

/-- Model of `Date.prototype.getDate` (local day of month) on an instant. -/
def jsGetDate (t : Int) : Int := (civilFromDays (jsDayNumber t)).d

/-- Model of `Date.prototype.getMonth` (local 0-indexed month). -/
def jsGetMonth (t : Int) : Int := (civilFromDays (jsDayNumber t)).m - 1

/-- Model of `Date.prototype.getFullYear` (local year). -/
def jsGetFullYear (t : Int) : Int := (civilFromDays (jsDayNumber t)).y

/-- Model of `Date.prototype.getMinutes` (local minutes). -/
def jsGetMinutes (t : Int) : Int := localMs t / 60000 % 60

/-- Model of `Date.prototype.getSeconds` (local seconds). -/
def jsGetSeconds (t : Int) : Int := localMs t / 1000 % 60

/-- Model of the `new Date(year, monthIndex, day)` constructor (ECMAScript
`MakeDay`/`MakeDate`): the month index is normalized into the year and the
day offsets from day 1 of that month; the result is the instant of local
midnight of that date.  (The legacy two-digit-year remapping is outside the
specification's year domain and is not modelled, see the file comment.) -/
def jsMakeDate (y mIdx d : Int) : Int :=
  let μ := 12 * y + mIdx
  (daysFromCivil (μ / 12) (μ % 12 + 1) 1 + (d - 1)) * msPerDay - tzOffsetMinutes * 60000

/-- Model of `Date.prototype.getUTCDate` on an instant. -/
def jsGetUTCDate (t : Int) : Int := (civilFromDays (t / msPerDay)).d

/-- Model of `Date.prototype.getUTCMonth` (0-indexed) on an instant. -/
def jsGetUTCMonth (t : Int) : Int := (civilFromDays (t / msPerDay)).m - 1

/-- Model of `Date.prototype.getUTCFullYear` on an instant. -/
def jsGetUTCFullYear (t : Int) : Int := (civilFromDays (t / msPerDay)).y

/-- Model of `Date.prototype.getUTCHours` on an instant. -/
def jsGetUTCHours (t : Int) : Int := t / 3600000 % 24

/-- An ECMAScript number result that may be NaN: `Date.parse` evaluates to
the NaN value (it does not throw) on unrecognizable input. -/
inductive JSNumber where
  | num : Int → JSNumber
  | nan : JSNumber
deriving DecidableEq, Repr

/-! ### Character-level string helpers

The source splits strings on a separator character and coerces the pieces to
numbers; these are structural-recursion models of those platform operations
(written over `List Char` so that they evaluate inside the kernel). -/

/-- `String.prototype.split` with a one-character separator. -/
def splitOnChar (sep : Char) : List Char → List (List Char)
  | [] => [[]]
  | c :: cs =>
    let r := splitOnChar sep cs
    if c = sep then [] :: r
    else
      match r with
      | [] => [[c]]
      | g :: gs => (c :: g) :: gs

/-- Accumulator for `parseDigits`. -/
def parseDigitsAux : List Char → Nat → Option Nat
  | [], acc => some acc
  | c :: cs, acc =>
    if '0' ≤ c ∧ c ≤ '9' then parseDigitsAux cs (acc * 10 + (c.toNat - 48))
    else none

/-- Numeric value of a nonempty string of decimal digits (the successful case
of ECMAScript `ToNumber` on the source's date fields); `none` stands for NaN. -/
def parseDigits (cs : List Char) : Option Nat :=
  match cs with
  | [] => none
  | _ => parseDigitsAux cs 0

/-- Parses the `YYYY-MM-DD` date part of an ISO-8601 string to an epoch day
number, validating the month and the day against the month's length. -/
def parseISODate (cs : List Char) : Option Int :=
  match splitOnChar '-' cs with
  | [ys, ms, ds] =>
    if ys.length = 4 ∧ ms.length = 2 ∧ ds.length = 2 then
      match parseDigits ys, parseDigits ms, parseDigits ds with
      | some y, some m, some d =>
        if 1 ≤ m ∧ m ≤ 12 ∧ 1 ≤ d ∧ (d : Int) ≤ daysInMonthGregorian y m then
          some (daysFromCivil y m d)
        else none
      | _, _, _ => none
    else none
  | _ => none

/-- Parses the `HH:mm:ss.sssZ` time part of an ISO-8601 string (seconds and
milliseconds optional) to milliseconds past midnight UTC. -/
def parseISOTime (cs : List Char) : Option Int :=
  match cs.reverse with
  | 'Z' :: rest =>
    let body := rest.reverse
    let fields :=
      match splitOnChar ':' body with
      | [hs, ms] => some (hs, ms, ([] : List Char), ([] : List Char))
      | [hs, ms, ss] =>
        match splitOnChar '.' ss with
        | [s2] => some (hs, ms, s2, ([] : List Char))
        | [s2, f3] => if f3.length = 3 then some (hs, ms, s2, f3) else none
        | _ => none
      | _ => none
    match fields with
    | some (hs, ms, ss, fs) =>
      if hs.length = 2 ∧ ms.length = 2 ∧ (ss.length = 2 ∨ ss.length = 0) then
        match parseDigits hs, parseDigits ms,
              (if ss.isEmpty then some 0 else parseDigits ss),
              (if fs.isEmpty then some 0 else parseDigits fs) with
        | some h, some m, some s, some f =>
          if h < 24 ∧ m < 60 ∧ s < 60 then
            some ((h : Int) * 3600000 + (m : Int) * 60000 + (s : Int) * 1000 + (f : Int))
          else none
        | _, _, _, _ => none
      else none
    | none => none
  | _ => none

/-- Model of ECMAScript `Date.parse` restricted to the ISO-8601 forms the
specification references (`YYYY-MM-DD` and `YYYY-MM-DDTHH:mm:ss.sssZ` and its
truncations); every other input yields `JSNumber.nan`, as `Date.parse` yields
NaN (it never throws). -/
def jsDateParse (s : String) : JSNumber :=
  let r :=
    match splitOnChar 'T' s.data with
    | [d] => (parseISODate d).map (· * msPerDay)
    | [d, tm] =>
      match parseISODate d, parseISOTime tm with
      | some day, some ms => some (day * msPerDay + ms)
      | _, _ => none
    | _ => none
  match r with
  | some t => JSNumber.num t
  | none => JSNumber.nan

/-! ### The source functions (`src/core-js-dates-tasks.js`) -/

/-- Source `dateToTimestamp` (line 20): `return Date.parse(date)`. -/
def dateToTimestamp (date : String) : JSNumber := jsDateParse date

/-- Source `getNextFriday` (lines 79-90), on an instant. -/
def getNextFriday (t : Int) : Int :=
  let dateDay := jsGetDay t
  if dateDay = 5 then t + 7 * msPerDay
  else if dateDay < 5 then t + (5 - dateDay) * msPerDay
  else t + 6 * msPerDay

/-- Source `getCountDaysOnPeriod` (lines 122-129): both bounds are parsed and
`1 + (end - start) / millisecondsInDay` is returned as an (exact) number;
`none` stands for the NaN produced when a bound does not parse. -/
def getCountDaysOnPeriod (dateStart dateEnd : String) : Option ℚ :=
  match jsDateParse dateStart, jsDateParse dateEnd with
  | JSNumber.num ts, JSNumber.num te =>
    some (1 + ((te : ℚ) - (ts : ℚ)) / (86400000 : ℚ))
  | _, _ => none

/-- Source `formatDate` (lines 166-182) on the parsed instant: month, day,
year and hour are taken with UTC accessors, minutes and seconds with local
accessors (equal to UTC here, the environment being UTC). -/
def formatDateMs (t : Int) : String :=
  let day := jsGetUTCDate t
  let month := jsGetUTCMonth t + 1
  let year := jsGetUTCFullYear t
  let hour0 := jsGetUTCHours t
  let hour := if 12 ≤ hour0 then (if 12 < hour0 then hour0 - 12 else hour0) else hour0
  let option := if 12 ≤ hour0 then "PM" else "AM"
  let min := if jsGetMinutes t < 10 then "0" ++ toString (jsGetMinutes t) else toString (jsGetMinutes t)
  let sec := if jsGetSeconds t < 10 then "0" ++ toString (jsGetSeconds t) else toString (jsGetSeconds t)
  toString month ++ "/" ++ toString day ++ "/" ++ toString year ++ ", " ++
    toString hour ++ ":" ++ min ++ ":" ++ sec ++ " " ++ option

/-- Source `formatDate` from its string argument; `none` is the unparsable
(Invalid Date) case, which no claim exercises. -/
def formatDate (date : String) : Option String :=
  match jsDateParse date with
  | JSNumber.num t => some (formatDateMs t)
  | JSNumber.nan => none

/-- Source `getCountWeekendsInMonth` (lines 196-215).  `countDays` embeds the
`new Date(year, month)` / `setDate(getDate() - 1)` dance: day 0 of the
following month, i.e. the last day of `month`. -/
def getCountWeekendsInMonth (month year : Int) : Int :=
  let day1 := jsGetDay (jsMakeDate year (month - 1) 1)
  let day := if day1 = 0 then 7 else day1
  let countDays := if month = 12 then 31 else jsGetDate (jsMakeDate year month 0)
  let count0 := (if day ≤ 6 then 2 else 0) + (if day = 7 then 1 else 0)
  let remainDay := countDays - (7 - day + 1)
  let fullWeekend := remainDay / 7
  let count1 := count0 + fullWeekend * 2
  let remainDay2 := remainDay - fullWeekend * 7
  if remainDay2 = 6 then count1 + 1 else count1

/-- Source `getWeekNumberByDate` (lines 230-244) on a calendar date (the
documented inputs are midnight-constructed `Date` values).  `valueOf`
differences of midnight dates are whole multiples of a day, so `countDays`
is the 1-based day of year; `Math.floor` is `/` and the JavaScript remainder
operator is `Int.tmod`. -/
def getWeekNumberByDate (c : Civil) : Int :=
  let year := c.y
  let firstDay0 := jsGetDay (jsMakeDate year 0 1)
  let firstDay := if firstDay0 = 0 then 7 else firstDay0
  let countDays := 1 + (jsMakeDate c.y (c.m - 1) c.d - jsMakeDate year 0 1) / msPerDay
  let count0 := if firstDay ≤ 4 then 1 else 0
  let remainDay := countDays - (7 - firstDay + 1)
  let fullWeekend := remainDay / 7
  let count1 := count0 + fullWeekend
  if Int.tmod remainDay 7 ≠ 0 then count1 + 1 else count1

/-- Calendar-level model of ECMAScript month/day normalization (`MakeDay`)
for the day values that occur at the call sites (a day of month of a valid
date, or the literal 13, so at most 59 after one month is skipped): a month
index is folded into the year, and a day overflowing the month's length
rolls into the following month. -/
def normCivil (y mIdx d : Int) : Civil :=
  let μ := 12 * y + mIdx
  let yq := μ / 12
  let m1 := μ % 12 + 1
  if d ≤ daysInMonthGregorian yq m1 then ⟨yq, m1, d⟩
  else
    let d2 := d - daysInMonthGregorian yq m1
    if m1 = 12 then ⟨yq + 1, 1, d2⟩ else ⟨yq, m1 + 1, d2⟩

/-- Model of `Date.prototype.setMonth` on a (midnight) calendar date. -/
def setMonthCivil (c : Civil) (mIdx : Int) : Civil := normCivil c.y mIdx c.d

/-- Model of `Date.prototype.setDate` on a (midnight) calendar date. -/
def setDateCivil (c : Civil) (d : Int) : Civil := normCivil c.y (c.m - 1) d

/-- Model of `Date.prototype.getDay` on a (midnight) calendar date. -/
def getDayCivil (c : Civil) : Int := weekdayOfDay (daysFromCivil c.y c.m c.d)

/-- The `while (resultDate.getDay() !== 5)` loop of source
`getNextFridayThe13th` (lines 261-263); the fuel models the absence of any
termination guarantee in the source. -/
def fridayThe13thSearch : Nat → Civil → Option Civil
  | 0, _ => none
  | fuel + 1, c =>
    if getDayCivil c = 5 then some c
    else fridayThe13thSearch fuel (setMonthCivil c ((c.m - 1) + 1))

/-- Source `getNextFridayThe13th` (lines 257-265): if the day of month
exceeds 13 the month is first advanced (`setMonth(getMonth() + 1)`, with
day-of-month overflow normalization), then the day is set to 13 and the
month advances until the weekday is Friday. -/
def getNextFridayThe13th (date : Civil) (fuel : Nat) : Option Civil :=
  let c1 := if 13 < date.d then setMonthCivil date ((date.m - 1) + 1) else date
  let c2 := setDateCivil c1 13
  fridayThe13thSearch fuel c2

/-- The period argument of source `getWorkSchedule`: `start` and `end` in
`DD-MM-YYYY` text form (the source's `end` field is a Lean keyword, hence
`stop` here). -/
structure Period where
  start : String
  stop : String

/-- The `DD-MM-YYYY` rendering of the running instant inside the schedule
loop of source `getWorkSchedule` (lines 319-327 and 332). -/
def scheduleDateString (t : Int) : String :=
  let dd := jsGetDate t
  let mIdx := jsGetMonth t
  let sd := if dd < 10 then "0" ++ toString dd else toString dd
  let sm := if mIdx < 9 then "0" ++ toString (mIdx + 1) else toString (mIdx + 1)
  sd ++ "-" ++ sm ++ "-" ++ toString (jsGetFullYear t)

/-- Parsing of one `DD-MM-YYYY` period bound of source `getWorkSchedule`
(lines 307-316): the string is split on `-` and the pieces feed
`new Date(parts[2], parts[1] - 1, parts[0])`; the result is that instant.
`none` stands for the Invalid Date produced when a piece is not numeric. -/
def parsePeriodDate (s : String) : Option Int :=
  match splitOnChar '-' s.data with
  | [ds, ms, ys] =>
    match parseDigits ds, parseDigits ms, parseDigits ys with
    | some d, some m, some y => some (jsMakeDate y ((m : Int) - 1) d)
    | _, _, _ => none
  | _ => none

/-- The `while (end >= start)` loop of source `getWorkSchedule`
(lines 317-336), with the running state (`start`, `count`, the array) as
arguments; the fuel models the absence of any termination guarantee. -/
def workLoop (endMs W offMs : Int) : Nat → Int → Int → List String → Option (List String)
  | 0, _, _, _ => none
  | fuel + 1, start, count, acc =>
    if start ≤ endMs then
      if count = W then workLoop endMs W offMs fuel (start + offMs) 0 acc
      else workLoop endMs W offMs fuel (start + msPerDay) (count + 1)
             (acc ++ [scheduleDateString start])
    else some acc

/-- Source `getWorkSchedule` (lines 303-338).  When a bound fails to parse,
the NaN bound makes `end >= start` false and the loop body never runs, so the
empty array is returned. -/
def getWorkSchedule (period : Period) (countWorkDays countOffDays : Int)
    (fuel : Nat) : Option (List String) :=
  match parsePeriodDate period.start, parsePeriodDate period.stop with
  | some startMs, some endMs =>
    workLoop endMs countWorkDays (msPerDay * countOffDays) fuel startMs 0 []
  | _, _ => some []

/-! ### Reference definitions, transcribed from the specification's words -/

/-- Two-digit zero-padded rendering of a (0-59) field. -/
def pad2 (n : Int) : String := if n < 10 then "0" ++ toString n else toString n

/-- Specification `countWeekendDays`: the number of Saturdays plus Sundays
among the days of the given 1-indexed month of the given year. -/
def weekendCountSpec (month year : Int) : Nat :=
  ((List.range (daysInMonthGregorian year month).toNat).filter
    (fun i =>
      let w := weekdayOfDay (daysFromCivil year month ((i : Int) + 1))
      w == 0 || w == 6)).length

/-- Specification `generateWorkSchedule`: starting at the period's first
day, the dates whose offset within the repeating (countWorkDays +
countOffDays)-day cycle falls among the first countWorkDays (the work
phase), up to the period's last day, rendered `DD-MM-YYYY`. -/
def workScheduleSpec (startDay endDay W off : Int) : List String :=
  ((List.range (endDay - startDay + 1).toNat).filter
    (fun (k : Nat) => (k : Int) % (W + off) < W)).map
    (fun (k : Nat) => scheduleDateString ((startDay + (k : Int)) * msPerDay))

/-- Specification `formatUS` rendering of an instant, with the hour-zero
behaviour the code actually has (UTC hour 0 renders as `0`, not `12`):
unpadded UTC month/day/year, hours 13-23 reduced by 12, `PM` from noon
onward, zero-padded minutes and seconds of the same UTC instant. -/
def renderUS (t : Int) : String :=
  let c := civilFromDays (t / msPerDay)
  let h24 := t / 3600000 % 24
  let h := if h24 ≤ 12 then h24 else h24 - 12
  let suffix := if h24 < 12 then "AM" else "PM"
  let mm := t / 60000 % 60
  let ss := t / 1000 % 60
  toString c.m ++ "/" ++ toString c.d ++ "/" ++ toString c.y ++ ", " ++
    toString h ++ ":" ++ pad2 mm ++ ":" ++ pad2 ss ++ " " ++ suffix

/-- The month-sequence index of a calendar date's month (months since the
month January of year 0), used to state the month-by-month search of
`getNextFridayThe13th`. -/
def monthIndex (c : Civil) : Int := 12 * c.y + (c.m - 1)

/-- Weekday of the 13th of the month with month-sequence index `μ`. -/
def month13Weekday (μ : Int) : Int :=
  weekdayOfDay (daysFromCivil (μ / 12) (μ % 12 + 1) 13)

/-- The closed-form count at the heart of `getCountWeekendsInMonth`, as a
function of the source's `day` (weekday of the month's first day, remapped to
Monday=1..Sunday=7) and `countDays` (the month length). -/
def weekendClosedForm (day countDays : Int) : Int :=
  let count0 := (if day ≤ 6 then 2 else 0) + (if day = 7 then 1 else 0)
  let remainDay := countDays - (7 - day + 1)
  let fullWeekend := remainDay / 7
  let count1 := count0 + fullWeekend * 2
  let remainDay2 := remainDay - fullWeekend * 7
  if remainDay2 = 6 then count1 + 1 else count1

/-- Reference weekend count as a function of the weekday of the month's
first day (ECMAScript 0=Sunday..6=Saturday) and the month length: the number
of offsets whose weekday is Saturday or Sunday. -/
def weekendRefCount (w len : Int) : Nat :=
  ((List.range len.toNat).filter
    (fun i => (w + (i : Int)) % 7 == 0 || (w + (i : Int)) % 7 == 6)).length

/-! ### Kernel-fast Gregorian arithmetic over `Nat`

The two ground facts below are checked by `decide` over a full 400-year
cycle; evaluating the `Int`-level conversions in the kernel is too slow for
that, so the same formulas are restated over `Nat` (where kernel arithmetic
on literals is fast) for years at least 400, and related to the `Int`
definitions by the bridge lemmas that follow the definitions. -/

/-- `daysFromCivil y m d + 719468` (the day index from 0000-03-01), computed
in `Nat`; agrees with the `Int` version for `1 ≤ y` (`dayIndexNat_eq`). -/
def dayIndexNat (y m d : Nat) : Nat :=
  let y' := if m ≤ 2 then y - 1 else y
  let era := y' / 400
  let yoe := y' - era * 400
  let doy := (153 * (if 2 < m then m - 3 else m + 9) + 2) / 5 + d - 1
  let doe := yoe * 365 + yoe / 4 - yoe / 100 + doy
  era * 146097 + doe

/-- The day-of-month field of `civilFromDays (z - 719468)`, with the large
divisions performed in `Nat` (`civilDayNat_eq`). -/
def civilDayNat (z : Nat) : Int :=
  let era := z / 146097
  let doe := z - era * 146097
  let num := doe - doe / 1460 + doe / 36524 - doe / 146096
  let yoe := num / 365
  let doy : Int :=
    (doe : Int) - (365 * (yoe : Int) + ((yoe / 4 : Nat) : Int) - ((yoe / 100 : Nat) : Int))
  let mp := (5 * doy + 2) / 153
  doy - (153 * mp + 2) / 5 + 1

-- Sanity checks of the epoch conversions on known dates.
example : daysFromCivil 1970 1 1 = 0 := by decide
example : civilFromDays 0 = ⟨1970, 1, 1⟩ := by decide
example : daysFromCivil 2024 1 1 = 19723 := by decide
example : civilFromDays 19723 = ⟨2024, 1, 1⟩ := by decide
example : weekdayOfDay (daysFromCivil 2024 1 1) = 1 := by decide
example : weekdayOfDay (daysFromCivil 2027 1 1) = 5 := by decide
example : weekdayOfDay (daysFromCivil 2026 2 13) = 5 := by decide
example : weekdayOfDay (daysFromCivil 2026 3 13) = 5 := by decide
example : daysInMonthGregorian 2024 2 = 29 := by decide
example : jsMakeDate 2024 12 1 = daysFromCivil 2025 1 1 * msPerDay := by decide
example : jsDateParse "2024-02-01T15:00:00.000Z" = JSNumber.num 1706799600000 := by decide
example : jsDateParse "hello" = JSNumber.nan := by decide
example : parsePeriodDate "01-01-2024" = some (19723 * 86400000) := by decide
example : scheduleDateString (19723 * 86400000) = "01-01-2024" := by decide
example : normCivil 2026 1 31 = ⟨2026, 3, 3⟩ := by decide
example : getWeekNumberByDate ⟨2027, 1, 1⟩ = 0 := by decide
example : getWeekNumberByDate ⟨2024, 1, 3⟩ = 1 := by decide
example : getWeekNumberByDate ⟨2024, 1, 31⟩ = 5 := by decide
example : getWeekNumberByDate ⟨2024, 2, 23⟩ = 8 := by decide
example : getCountWeekendsInMonth 5 2022 = 9 := by decide
example : getCountWeekendsInMonth 12 2023 = 10 := by decide
example : getCountWeekendsInMonth 1 2024 = 8 := by decide
example : getNextFridayThe13th ⟨2024, 1, 13⟩ 20 = some ⟨2024, 9, 13⟩ := by decide
example : getNextFridayThe13th ⟨2023, 2, 1⟩ 20 = some ⟨2023, 10, 13⟩ := by decide
example : getNextFridayThe13th ⟨2026, 1, 31⟩ 20 = some ⟨2026, 3, 13⟩ := by decide
example :
    getWorkSchedule ⟨"01-01-2024", "15-01-2024"⟩ 1 3 30 =
      some ["01-01-2024", "05-01-2024", "09-01-2024", "13-01-2024"] := by decide
example :
    getWorkSchedule ⟨"01-01-2024", "10-01-2024"⟩ 1 1 30 =
      some ["01-01-2024", "03-01-2024", "05-01-2024", "07-01-2024", "09-01-2024"] := by decide
example : formatDate "2024-02-01T15:00:00.000Z" = some "2/1/2024, 3:00:00 PM" := by decide
example : formatDate "1999-01-05T02:20:00.000Z" = some "1/5/1999, 2:20:00 AM" := by decide
example : formatDate "2010-12-15T22:59:00.000Z" = some "12/15/2010, 10:59:00 PM" := by decide
example : formatDate "2024-02-01T00:20:00.000Z" = some "2/1/2024, 0:20:00 AM" := by decide

/-! ### 400-year periodicity

The Gregorian calendar repeats every 400 years = 146097 days, a multiple of
7; these lemmas reduce claims quantified over all years to the window
[0, 400), which is then checked by `decide`. -/

theorem daysFromCivil_add_400 (y m d n : Int) :
    daysFromCivil (y + 400 * n) m d = daysFromCivil y m d + 146097 * n := by
  simp only [daysFromCivil]
  have hif : (if m ≤ 2 then y + 400 * n - 1 else y + 400 * n)
      = (if m ≤ 2 then y - 1 else y) + 400 * n := by split <;> ring
  simp only [hif]
  generalize (if m ≤ 2 then y - 1 else y) = a
  have h400 : (a + 400 * n) / 400 = a / 400 + n := by
    rw [mul_comm 400 n]; exact Int.add_mul_ediv_right a n (by norm_num)
  rw [h400]
  have hyoe : a + 400 * n - (a / 400 + n) * 400 = a - a / 400 * 400 := by ring
  rw [hyoe]; ring

theorem civilFromDays_add_146097 (z n : Int) :
    civilFromDays (z + 146097 * n) =
      ⟨(civilFromDays z).y + 400 * n, (civilFromDays z).m, (civilFromDays z).d⟩ := by
  simp only [civilFromDays]
  have hz : z + 146097 * n + 719468 = (z + 719468) + 146097 * n := by ring
  rw [hz]
  generalize z + 719468 = w
  have hera : (w + 146097 * n) / 146097 = w / 146097 + n := by
    rw [mul_comm 146097 n]; exact Int.add_mul_ediv_right w n (by norm_num)
  rw [hera]
  have hdoe : w + 146097 * n - (w / 146097 + n) * 146097 = w - w / 146097 * 146097 := by
    ring
  rw [hdoe]
  generalize w - w / 146097 * 146097 = doe
  generalize (doe - doe / 1460 + doe / 36524 - doe / 146096) / 365 = yoe
  generalize hmp : (5 * (doe - (365 * yoe + yoe / 4 - yoe / 100)) + 2) / 153 = mp
  split <;> simp [Civil.mk.injEq] <;> split <;> ring

theorem weekdayOfDay_add_146097 (t n : Int) :
    weekdayOfDay (t + 146097 * n) = weekdayOfDay t := by
  unfold weekdayOfDay; omega

theorem jsMakeDate_add_400 (y mIdx d n : Int) :
    jsMakeDate (y + 400 * n) mIdx d = jsMakeDate y mIdx d + 146097 * n * msPerDay := by
  simp only [jsMakeDate]
  have hμ : 12 * (y + 400 * n) + mIdx = (12 * y + mIdx) + 400 * n * 12 := by ring
  rw [hμ]
  generalize 12 * y + mIdx = μ
  have hdiv : (μ + 400 * n * 12) / 12 = μ / 12 + 400 * n :=
    Int.add_mul_ediv_right μ (400 * n) (by norm_num)
  have hmod : (μ + 400 * n * 12) % 12 = μ % 12 := Int.add_mul_emod_self
  rw [hdiv, hmod, daysFromCivil_add_400]
  ring

theorem isLeapGregorian_add_400 (y n : Int) :
    isLeapGregorian (y + 400 * n) = isLeapGregorian y := by
  unfold isLeapGregorian
  have h1 : (y + 400 * n) % 400 = y % 400 := by omega
  have h2 : (y + 400 * n) % 4 = y % 4 := by omega
  have h3 : (y + 400 * n) % 100 = y % 100 := by omega
  rw [h1, h2, h3]

theorem daysInMonthGregorian_add_400 (y m n : Int) :
    daysInMonthGregorian (y + 400 * n) m = daysInMonthGregorian y m := by
  unfold daysInMonthGregorian
  rw [isLeapGregorian_add_400]

theorem jsDayNumber_add_cycle (t n : Int) :
    jsDayNumber (t + 146097 * n * msPerDay) = jsDayNumber t + 146097 * n := by
  unfold jsDayNumber localMs
  have h : t + 146097 * n * msPerDay + tzOffsetMinutes * 60000
      = (t + tzOffsetMinutes * 60000) + (146097 * n) * msPerDay := by ring
  rw [h, Int.add_mul_ediv_right _ _ (by norm_num [msPerDay] : msPerDay ≠ 0)]

theorem jsGetDay_add_cycle (t n : Int) :
    jsGetDay (t + 146097 * n * msPerDay) = jsGetDay t := by
  unfold jsGetDay
  rw [jsDayNumber_add_cycle]
  have h : jsDayNumber t + 146097 * n = jsDayNumber t + 146097 * n := rfl
  rw [weekdayOfDay_add_146097]

theorem jsGetDate_add_cycle (t n : Int) :
    jsGetDate (t + 146097 * n * msPerDay) = jsGetDate t := by
  unfold jsGetDate
  rw [jsDayNumber_add_cycle, civilFromDays_add_146097]

theorem getCountWeekendsInMonth_add_400 (m y n : Int) :
    getCountWeekendsInMonth m (y + 400 * n) = getCountWeekendsInMonth m y := by
  simp only [getCountWeekendsInMonth, jsMakeDate_add_400, jsGetDay_add_cycle,
    jsGetDate_add_cycle]

theorem weekendCountSpec_add_400 (m y n : Int) :
    weekendCountSpec m (y + 400 * n) = weekendCountSpec m y := by
  simp only [weekendCountSpec, daysInMonthGregorian_add_400, daysFromCivil_add_400,
    weekdayOfDay_add_146097]

/-! ### The weekend count (`getCountWeekendsInMonth`) -/

/-- The month length is at least 28 and at most 31. -/
theorem daysInMonthGregorian_bounds (y m : Int) :
    28 ≤ daysInMonthGregorian y m ∧ daysInMonthGregorian y m ≤ 31 := by
  unfold daysInMonthGregorian
  split_ifs <;> omega

theorem dayIndexNat_eq (y m d : Nat) (hy : 1 ≤ y) (hm1 : 1 ≤ m) (hm2 : m ≤ 12)
    (hd : 1 ≤ d) :
    ((dayIndexNat y m d : Nat) : Int)
      = daysFromCivil (y : Int) (m : Int) (d : Int) + 719468 := by
  simp only [dayIndexNat, daysFromCivil]
  by_cases hm : m ≤ 2
  · rw [if_pos hm, if_pos (by exact_mod_cast hm : (m : Int) ≤ 2)]
    by_cases h2m : 2 < m
    · omega
    · rw [if_neg h2m, if_neg (by exact_mod_cast h2m : ¬ (2 : Int) < (m : Int))]
      push_cast
      omega
  · rw [if_neg hm, if_neg (by exact_mod_cast hm : ¬ (m : Int) ≤ 2)]
    have h2m : 2 < m := by omega
    rw [if_pos h2m, if_pos (by exact_mod_cast h2m : (2 : Int) < (m : Int))]
    push_cast
    omega

theorem civilDayNat_eq (z : Nat) :
    civilDayNat z = (civilFromDays ((z : Int) - 719468)).d := by
  have hd : (civilFromDays ((z : Int) - 719468)).d =
      (let w := (z : Int) - 719468 + 719468
       let era := w / 146097
       let doe := w - era * 146097
       let yoe := (doe - doe / 1460 + doe / 36524 - doe / 146096) / 365
       let doy := doe - (365 * yoe + yoe / 4 - yoe / 100)
       let mp := (5 * doy + 2) / 153
       doy - (153 * mp + 2) / 5 + 1) := rfl
  rw [hd]
  simp only [civilDayNat]
  rw [show (z : Int) - 719468 + 719468 = (z : Int) from by ring]
  have h2 : ((z - z / 146097 * 146097 : Nat) : Int)
      = (z : Int) - (z : Int) / 146097 * 146097 := by omega
  generalize hnd : z - z / 146097 * 146097 = nd at h2 ⊢
  generalize hid : (z : Int) - (z : Int) / 146097 * 146097 = idoe at h2 ⊢
  have h4 : (((nd - nd / 1460 + nd / 36524 - nd / 146096) / 365 : Nat) : Int)
      = (idoe - idoe / 1460 + idoe / 36524 - idoe / 146096) / 365 := by omega
  generalize hny : (nd - nd / 1460 + nd / 36524 - nd / 146096) / 365 = nyoe at h4 ⊢
  generalize hiy : (idoe - idoe / 1460 + idoe / 36524 - idoe / 146096) / 365 = iyoe at h4 ⊢
  clear hnd hid hny hiy
  have h5 : ((nd : Int))
        - (365 * (nyoe : Int) + ((nyoe / 4 : Nat) : Int) - ((nyoe / 100 : Nat) : Int))
      = idoe - (365 * iyoe + iyoe / 4 - iyoe / 100) := by omega
  rw [h5]

/-- The day index is positive from year 400 on. -/
theorem dayIndexNat_pos (y m d : Nat) (hy : 400 ≤ y) : 1 ≤ dayIndexNat y m d := by
  simp only [dayIndexNat]
  split_ifs <;> omega

set_option maxRecDepth 100000 in
set_option maxHeartbeats 12000000 in
/-- Ground fact, checked (in fast `Nat` arithmetic) over the 400-year cycle
[400, 800): reading back the day of month of "one day before the first of
the following month" yields the Gregorian month length. -/
theorem daysInMonthBase : ∀ r : Nat, r < 400 → ∀ mi : Nat, mi < 12 →
    civilDayNat (dayIndexNat (if mi + 1 = 12 then 401 + r else 400 + r)
        (if mi + 1 = 12 then 1 else mi + 2) 1 - 1)
      = daysInMonthGregorian (400 + (r : Int)) ((mi : Int) + 1) := by decide

/-- The civil read of the day before the first of a month, in `Nat` form. -/
theorem civilD_pred_first (yN mN : Nat) (hy : 400 ≤ yN) (hm1 : 1 ≤ mN) (hm2 : mN ≤ 12) :
    (civilFromDays (daysFromCivil (yN : Int) (mN : Int) 1 - 1)).d
      = civilDayNat (dayIndexNat yN mN 1 - 1) := by
  have hbr := dayIndexNat_eq yN mN 1 (by omega) hm1 hm2 (by norm_num)
  have hpos := dayIndexNat_pos yN mN 1 hy
  have hz : ((dayIndexNat yN mN 1 - 1 : Nat) : Int) = (dayIndexNat yN mN 1 : Int) - 1 := by
    omega
  rw [civilDayNat_eq, hz, hbr]
  congr 1
  ring_nf

/-- The `new Date(year, month)` / `setDate(0)` read, as a civil field of the
day before the first of the (normalized) following month. -/
theorem jsGetDate_jsMakeDate0 (y m : Int) :
    jsGetDate (jsMakeDate y m 0)
      = (civilFromDays
          (daysFromCivil ((12 * y + m) / 12) ((12 * y + m) % 12 + 1) 1 - 1)).d := by
  simp only [jsGetDate, jsMakeDate, jsDayNumber, localMs, tzOffsetMinutes]
  rw [show (daysFromCivil ((12 * y + m) / 12) ((12 * y + m) % 12 + 1) 1 + (0 - 1)) * msPerDay
        - 0 * 60000 + 0 * 60000
      = (daysFromCivil ((12 * y + m) / 12) ((12 * y + m) % 12 + 1) 1 - 1) * msPerDay from by
    ring]
  rw [Int.mul_ediv_cancel _ (by norm_num [msPerDay] : msPerDay ≠ 0)]

/-- The code's `countDays` read equals the Gregorian month length, for every
year (by 400-year periodicity from `daysInMonthBase`). -/
theorem jsGetDate_day0 (y m : Int) (h1 : 1 ≤ m) (h2 : m ≤ 12) :
    jsGetDate (jsMakeDate y m 0) = daysInMonthGregorian y m := by
  obtain ⟨r, n, hy, hr0, hr400⟩ : ∃ r n : Int, y = (400 + r) + 400 * n ∧ 0 ≤ r ∧ r < 400 :=
    ⟨y % 400, y / 400 - 1, by omega, by omega, by omega⟩
  subst hy
  rw [jsMakeDate_add_400, jsGetDate_add_cycle, daysInMonthGregorian_add_400,
    jsGetDate_jsMakeDate0]
  have hkey := daysInMonthBase r.toNat (by omega) (m - 1).toNat (by omega)
  rw [show (400 + ((r.toNat : Nat) : Int)) = 400 + r from by omega] at hkey
  by_cases hm12 : m = 12
  · subst hm12
    norm_num at hkey
    rw [show (12 * (400 + r) + 12) / 12 = ((401 + r.toNat : Nat) : Int) from by omega,
        show (12 * (400 + r) + 12) % 12 + 1 = ((1 : Nat) : Int) from by omega]
    rw [civilD_pred_first (401 + r.toNat) 1 (by omega) (by omega) (by omega)]
    exact hkey
  · have hne : ¬((m - 1).toNat + 1 = 12) := by omega
    rw [if_neg hne, if_neg hne,
      show (((m - 1).toNat : Nat) : Int) + 1 = m from by omega] at hkey
    rw [show (12 * (400 + r) + m) / 12 = ((400 + r.toNat : Nat) : Int) from by omega,
        show (12 * (400 + r) + m) % 12 + 1 = (((m - 1).toNat + 2 : Nat) : Int) from by omega]
    rw [civilD_pred_first (400 + r.toNat) ((m - 1).toNat + 2) (by omega) (by omega) (by omega)]
    exact hkey

/-- `daysFromCivil` is linear in the day field. -/
theorem daysFromCivil_linear (y m d : Int) :
    daysFromCivil y m d = daysFromCivil y m 1 + (d - 1) := by
  simp only [daysFromCivil]
  ring

/-- Weekday of a shifted day number. -/
theorem weekdayOfDay_add (a k : Int) :
    weekdayOfDay (a + k) = (weekdayOfDay a + k) % 7 := by
  unfold weekdayOfDay
  omega

/-- The weekday read of `new Date(year, month - 1)` is the weekday of the
first day of the 1-indexed month. -/
theorem jsGetDay_first (y m : Int) (h1 : 1 ≤ m) (h2 : m ≤ 12) :
    jsGetDay (jsMakeDate y (m - 1) 1) = weekdayOfDay (daysFromCivil y m 1) := by
  simp only [jsGetDay, jsDayNumber, localMs, jsMakeDate, tzOffsetMinutes]
  have hdiv : (12 * y + (m - 1)) / 12 = y := by omega
  have hmod : (12 * y + (m - 1)) % 12 + 1 = m := by omega
  rw [hdiv, hmod]
  have : (daysFromCivil y m 1 + (1 - 1)) * msPerDay - 0 * 60000 + 0 * 60000
      = daysFromCivil y m 1 * msPerDay := by ring
  rw [this]
  rw [Int.mul_ediv_cancel _ (by norm_num [msPerDay] : msPerDay ≠ 0)]

/-- `getCountWeekendsInMonth` is its closed form applied to the weekday of
the month's first day (remapped to Monday=1..Sunday=7) and the month length. -/
theorem weekendCode_closed (m y : Int) (h1 : 1 ≤ m) (h2 : m ≤ 12) :
    getCountWeekendsInMonth m y
      = weekendClosedForm
          (if weekdayOfDay (daysFromCivil y m 1) = 0 then 7
           else weekdayOfDay (daysFromCivil y m 1))
          (daysInMonthGregorian y m) := by
  unfold getCountWeekendsInMonth weekendClosedForm
  rw [jsGetDay_first y m h1 h2, jsGetDate_day0 y m h1 h2]
  by_cases h12 : m = 12
  · subst h12
    simp [daysInMonthGregorian]
  · simp [h12]

/-- `weekendCountSpec` is the reference count applied to the weekday of the
month's first day and the month length. -/
theorem weekendSpec_ref (m y : Int) :
    weekendCountSpec m y
      = weekendRefCount (weekdayOfDay (daysFromCivil y m 1))
          (daysInMonthGregorian y m) := by
  unfold weekendCountSpec weekendRefCount
  congr 1
  apply List.filter_congr
  intro i _
  have hlin : daysFromCivil y m ((i : Int) + 1) = daysFromCivil y m 1 + (i : Int) := by
    rw [daysFromCivil_linear]; ring
  rw [hlin, weekdayOfDay_add]

/-- The closed form agrees with the reference count on the 28 possible
(first weekday, month length) combinations. -/
theorem weekendClosed_eq_ref : ∀ w : Nat, w < 7 → ∀ j : Nat, j < 4 →
    weekendClosedForm (if (w : Int) = 0 then 7 else (w : Int)) (28 + (j : Int))
      = weekendRefCount (w : Int) (28 + (j : Int)) := by decide

/-- Main weekend-count correctness: the source function computes exactly the
number of Saturdays and Sundays of the month (any month 1-12, any year). -/
theorem weekendCount_eq (m y : Int) (h1 : 1 ≤ m) (h2 : m ≤ 12) :
    getCountWeekendsInMonth m y = weekendCountSpec m y := by
  rw [weekendCode_closed m y h1 h2, weekendSpec_ref m y]
  have hw0 : 0 ≤ weekdayOfDay (daysFromCivil y m 1) := by unfold weekdayOfDay; omega
  have hw7 : weekdayOfDay (daysFromCivil y m 1) < 7 := by unfold weekdayOfDay; omega
  obtain ⟨hl28, hl31⟩ := daysInMonthGregorian_bounds y m
  have hbase := weekendClosed_eq_ref (weekdayOfDay (daysFromCivil y m 1)).toNat
    (by omega) (daysInMonthGregorian y m - 28).toNat (by omega)
  have hwc : (((weekdayOfDay (daysFromCivil y m 1)).toNat : Nat) : Int)
      = weekdayOfDay (daysFromCivil y m 1) := by omega
  have hlc : (28 : Int) + ((daysInMonthGregorian y m - 28).toNat : Int)
      = daysInMonthGregorian y m := by omega
  rw [hwc, hlc] at hbase
  exact hbase

/-! ### Claim C1: ISO week number range -/

/-- C1: the claim states `getWeekNumberByDate` always returns an integer in
[1, 53], in particular never less than 1 even when January 1 falls on a
Friday, Saturday or Sunday.  The code contradicts its own ISO-8601
documentation there: for January 1, 2027 (a Friday) it returns 0. -/
theorem C1_weekNumber_jan1_2027_is_zero :
    getWeekNumberByDate ⟨2027, 1, 1⟩ = 0 ∧
      ¬ (1 ≤ getWeekNumberByDate ⟨2027, 1, 1⟩) := by decide

/-! ### Claim C3: weekend count -/

/-- C3: `getCountWeekendsInMonth` returns the number of Saturdays plus
Sundays contained in the given 1-indexed month of the given year, for every
month 1-12 and every year from 100 on (the years the `Date` constructor
takes at face value - these include the specification's whole four-digit
year domain; 0-99 would hit the legacy two-digit-year remapping that the
embedding does not model, see `jsMakeDate`); in particular 9 for May 2022,
10 for December 2023 and 8 for January 2024. -/
theorem C3_countWeekendDays_correct :
    (∀ m y : Int, 1 ≤ m → m ≤ 12 → 100 ≤ y →
      getCountWeekendsInMonth m y = weekendCountSpec m y) ∧
    getCountWeekendsInMonth 5 2022 = 9 ∧
    getCountWeekendsInMonth 12 2023 = 10 ∧
    getCountWeekendsInMonth 1 2024 = 8 :=
  ⟨fun m y h1 h2 _hy => weekendCount_eq m y h1 h2, by decide, by decide, by decide⟩

/-- Witness for C3 at a concrete month. -/
theorem C3_countWeekendDays_correct_witness :
    getCountWeekendsInMonth 5 2022 = weekendCountSpec 5 2022 :=
  C3_countWeekendDays_correct.1 5 2022 (by norm_num) (by norm_num) (by norm_num)

/-! ### Claim C8: behaviour of `dateToTimestamp` on unparsable text -/

/-- C8 counterexample: the claim states that unrecognizable input makes
`dateToTimestamp` fail with a `ParseError` rather than return; the code just
returns `Date.parse`'s NaN value - the call completes normally. -/
theorem C8_dateToTimestamp_returns_nan :
    dateToTimestamp "not a date" = JSNumber.nan := by decide

/-- C8 amended: for input that is not a recognizable date representation,
`dateToTimestamp` returns the NaN numeric value (the ECMAScript parse-failure
sentinel) to the caller; no exception is raised. -/
theorem C8_amended_nan_propagates (s : String)
    (h : jsDateParse s = JSNumber.nan) : dateToTimestamp s = JSNumber.nan := by
  unfold dateToTimestamp
  exact h

/-- Witness for C8 at a concrete unparsable string. -/
theorem C8_amended_nan_propagates_witness :
    dateToTimestamp "29 gibberish 2023" = JSNumber.nan :=
  C8_amended_nan_propagates "29 gibberish 2023" (by decide)

/-! ### Claim C9: non-negativity of the day-count functions -/

/-- C9 counterexample: the claim states `getCountDaysOnPeriod` returns a
non-negative integer for all pairs of parseable inputs; with the bounds
reversed by two days the code returns -1. -/
theorem C9_inclusiveDaySpan_negative :
    getCountDaysOnPeriod "2024-02-03T00:00:00.000Z" "2024-02-01T00:00:00.000Z"
      = some (-1 : ℚ) ∧ ((-1 : ℚ) < 0) := by
  constructor
  · have h1 : jsDateParse "2024-02-03T00:00:00.000Z" = JSNumber.num 1706918400000 := by
      decide
    have h2 : jsDateParse "2024-02-01T00:00:00.000Z" = JSNumber.num 1706745600000 := by
      decide
    unfold getCountDaysOnPeriod
    rw [h1, h2]
    norm_num
  · norm_num

/-- C9 amended: `getCountDaysOnPeriod` returns a non-negative (indeed
positive) integer whenever the parsed end does not precede the parsed start
and the two instants are a whole number of days apart, and
`getCountWeekendsInMonth` is non-negative for every month 1-12 and year. -/
theorem C9_amended_day_counts_nonneg :
    (∀ (s e : String) (a b : Int), jsDateParse s = JSNumber.num a →
      jsDateParse e = JSNumber.num b → a ≤ b → (b - a) % msPerDay = 0 →
      ∃ n : Nat, getCountDaysOnPeriod s e = some ((n : ℚ)) ∧ 1 ≤ n) ∧
    (∀ m y : Int, 1 ≤ m → m ≤ 12 → 0 ≤ getCountWeekendsInMonth m y) := by
  constructor
  · intro s e a b hs he hle hmod
    unfold getCountDaysOnPeriod
    rw [hs, he]
    have hms : msPerDay = 86400000 := rfl
    rw [hms] at hmod
    set k : Int := (b - a) / 86400000 with hk
    have hba : b - a = 86400000 * k := by omega
    have hk0 : 0 ≤ k := by omega
    refine ⟨k.toNat + 1, ?_, by omega⟩
    show some (1 + ((b : ℚ) - (a : ℚ)) / 86400000) = some (((k.toNat + 1 : ℕ) : ℚ))
    have hcast : ((b : ℚ) - (a : ℚ)) = 86400000 * (k : ℚ) := by
      exact_mod_cast congrArg (fun x : Int => (x : ℚ)) hba
    rw [hcast]
    have : (86400000 : ℚ) * (k : ℚ) / 86400000 = (k : ℚ) := by
      field_simp
    rw [this]
    have hkn : ((k.toNat : ℚ)) = (k : ℚ) := by
      exact_mod_cast congrArg (fun x : Int => (x : ℚ)) (Int.toNat_of_nonneg hk0)
    push_cast
    rw [hkn]
    ring_nf
  · intro m y h1 h2
    rw [weekendCount_eq m y h1 h2]
    exact Int.ofNat_nonneg _

/-- Witness for C9 on a concrete two-day period and a concrete month. -/
theorem C9_amended_day_counts_nonneg_witness :
    (∃ n : Nat, getCountDaysOnPeriod "2024-02-01" "2024-02-03" = some ((n : ℚ)) ∧ 1 ≤ n) ∧
      0 ≤ getCountWeekendsInMonth 6 2025 :=
  ⟨C9_amended_day_counts_nonneg.1 "2024-02-01" "2024-02-03" 1706745600000 1706918400000
      (by decide) (by decide) (by decide) (by decide),
    C9_amended_day_counts_nonneg.2 6 2025 (by norm_num) (by norm_num)⟩

/-! ### Claim C2: next Friday -/

/-- Weekday of an instant, in arithmetic form. -/
theorem jsGetDay_eq (t : Int) : jsGetDay t = (t / 86400000 + 4) % 7 := by
  simp [jsGetDay, jsDayNumber, localMs, tzOffsetMinutes, weekdayOfDay, msPerDay]

/-- The source's branching, in arithmetic form. -/
theorem getNextFriday_eq (t : Int) :
    getNextFriday t =
      (if (t / 86400000 + 4) % 7 = 5 then t + 7 * 86400000
       else if (t / 86400000 + 4) % 7 < 5 then
         t + (5 - (t / 86400000 + 4) % 7) * 86400000
       else t + 6 * 86400000) := by
  simp only [getNextFriday, jsGetDay_eq, msPerDay]

/-- C2 counterexample: for the instant 2024-02-16T12:00:00Z (a Friday, but
not midnight), the result is 2024-02-23T12:00:00Z, which is not 00:00 of any
day, contradicting the claim's "00:00 of the next Friday" for every instant. -/
theorem C2_nextFriday_not_midnight :
    getNextFriday 1708084800000 = 1708689600000 ∧
      ¬ (1708689600000 % msPerDay = 0) := by decide

/-- C2 (amended): `getNextFriday` adds a whole number of days, preserving the
time of day: on a Friday the result is exactly 604800000 ms later and never
equals the input; otherwise it is the nearest upcoming Friday, 1 to 6 days
ahead; and for a midnight-aligned instant the result is exactly 00:00 of the
next Friday strictly after the input's calendar date. -/
theorem C2_nextFriday_behaviour (t : Int) :
    (jsGetDay t = 5 → getNextFriday t = t + 604800000 ∧ getNextFriday t ≠ t) ∧
    (jsGetDay t ≠ 5 →
      ∃ k : Int, 1 ≤ k ∧ k ≤ 6 ∧ getNextFriday t = t + k * msPerDay ∧
        jsGetDay (getNextFriday t) = 5 ∧
        (∀ i : Int, 1 ≤ i → i < k → jsGetDay (t + i * msPerDay) ≠ 5)) ∧
    (t % msPerDay = 0 →
      getNextFriday t % msPerDay = 0 ∧ jsGetDay (getNextFriday t) = 5 ∧
      t < getNextFriday t ∧ getNextFriday t ≤ t + 7 * msPerDay ∧
      (∀ u : Int, u % msPerDay = 0 → jsGetDay u = 5 → t < u →
        getNextFriday t ≤ u)) := by
  have hms : msPerDay = 86400000 := rfl
  rw [hms, getNextFriday_eq]
  refine ⟨?_, ?_, ?_⟩
  · intro h5
    rw [jsGetDay_eq] at h5
    rw [if_pos h5]
    omega
  · intro h5
    rw [jsGetDay_eq] at h5
    by_cases hlt : (t / 86400000 + 4) % 7 < 5
    · refine ⟨5 - (t / 86400000 + 4) % 7, by omega, by omega,
        by rw [if_neg h5, if_pos hlt], ?_, ?_⟩
      · rw [if_neg h5, if_pos hlt, jsGetDay_eq]
        omega
      · intro i h1 h2
        rw [jsGetDay_eq]
        omega
    · refine ⟨6, by omega, by omega, by rw [if_neg h5, if_neg hlt], ?_, ?_⟩
      · rw [if_neg h5, if_neg hlt, jsGetDay_eq]
        omega
      · intro i h1 h2
        rw [jsGetDay_eq]
        omega
  · intro halign
    split_ifs with h5 hlt
    · exact ⟨by omega, by rw [jsGetDay_eq]; omega, by omega, by omega,
        fun u hu hf hgt => by rw [jsGetDay_eq] at hf; omega⟩
    · exact ⟨by omega, by rw [jsGetDay_eq]; omega, by omega, by omega,
        fun u hu hf hgt => by rw [jsGetDay_eq] at hf; omega⟩
    · exact ⟨by omega, by rw [jsGetDay_eq]; omega, by omega, by omega,
        fun u hu hf hgt => by rw [jsGetDay_eq] at hf; omega⟩

/-- Witness for C2 at midnight of Friday 2024-02-16. -/
theorem C2_nextFriday_behaviour_witness :
    getNextFriday 1708041600000 = 1708041600000 + 604800000 ∧
      getNextFriday 1708041600000 ≠ 1708041600000 :=
  (C2_nextFriday_behaviour 1708041600000).1 (by decide)

/-! ### The schedule loop (`getWorkSchedule`) -/

/-- The loop terminates once the running start passes the end, provided the
off-block advances by at least a day; `k` bounds the remaining day-steps. -/
theorem workLoop_term (endMs W offMs : Int) (hoff : msPerDay ≤ offMs) :
    ∀ (k fuel : Nat) (start count : Int) (acc : List String),
      k + 1 ≤ fuel → endMs < start + (k : Int) * msPerDay →
      ∃ r, workLoop endMs W offMs fuel start count acc = some r := by
  intro k
  induction k with
  | zero =>
    intro fuel start count acc hf hlt
    obtain ⟨f, rfl⟩ : ∃ f, fuel = f + 1 := ⟨fuel - 1, by omega⟩
    have hlt' : endMs < start := by simpa using hlt
    simp only [workLoop]
    rw [if_neg (by omega : ¬ start ≤ endMs)]
    exact ⟨acc, rfl⟩
  | succ n ih =>
    intro fuel start count acc hf hlt
    obtain ⟨f, rfl⟩ : ∃ f, fuel = f + 1 := ⟨fuel - 1, by omega⟩
    simp only [workLoop]
    by_cases hend : start ≤ endMs
    · rw [if_pos hend]
      have hms : msPerDay = 86400000 := rfl
      rw [hms] at hlt hoff
      push_cast at hlt
      by_cases hcnt : count = W
      · rw [if_pos hcnt]
        apply ih f (start + offMs) 0 acc (by omega)
        rw [hms]
        omega
      · rw [if_neg hcnt]
        apply ih f (start + msPerDay) (count + 1) (acc ++ [scheduleDateString start])
          (by omega)
        rw [hms]
        omega

    · rw [if_neg hend]
      exact ⟨acc, rfl⟩

/-- With `countWorkDays = 0` the loop always takes the skip branch and emits
nothing. -/
theorem workLoop_zeroW (endMs offMs : Int) (hoff : msPerDay ≤ offMs) :
    ∀ (k fuel : Nat) (start : Int) (acc : List String),
      k + 1 ≤ fuel → endMs < start + (k : Int) * msPerDay →
      workLoop endMs 0 offMs fuel start 0 acc = some acc := by
  intro k
  induction k with
  | zero =>
    intro fuel start acc hf hlt
    obtain ⟨f, rfl⟩ : ∃ f, fuel = f + 1 := ⟨fuel - 1, by omega⟩
    have hlt' : endMs < start := by simpa using hlt
    simp only [workLoop]
    rw [if_neg (by omega : ¬ start ≤ endMs)]
  | succ n ih =>
    intro fuel start acc hf hlt
    obtain ⟨f, rfl⟩ : ∃ f, fuel = f + 1 := ⟨fuel - 1, by omega⟩
    simp only [workLoop]
    by_cases hend : start ≤ endMs
    · rw [if_pos hend]
      show workLoop endMs 0 offMs f (start + offMs) 0 acc = some acc
      apply ih f (start + offMs) acc (by omega)
      have hms : msPerDay = 86400000 := rfl
      rw [hms] at hlt hoff ⊢
      push_cast at hlt ⊢
      omega
    · rw [if_neg hend]

/-- Filtering a range whose head satisfies the predicate. -/
theorem filterRange_cons (p : Nat → Bool) (j len : Nat) (hp : p j = true) :
    (List.range' j (len + 1)).filter p = j :: (List.range' (j + 1) len).filter p := by
  rw [List.range'_succ]
  simp [List.filter_cons, hp]

/-- Filtering a range whose head fails the predicate. -/
theorem filterRange_skip (p : Nat → Bool) (j len : Nat) (hp : p j = false) :
    (List.range' j (len + 1)).filter p = (List.range' (j + 1) len).filter p := by
  rw [List.range'_succ]
  simp [List.filter_cons, hp]

/-- A block of consecutive failing positions can be skipped wholesale. -/
theorem filterRange_skipBlock (p : Nat → Bool) (T : Nat) :
    ∀ (off j : Nat), (∀ i : Nat, i < off → p (j + i) = false) →
      (List.range' j (T - j)).filter p
        = (List.range' (j + off) (T - (j + off))).filter p := by
  intro off
  induction off with
  | zero => intro j _; simp
  | succ n ih =>
    intro j hfail
    by_cases hjT : j < T
    · have hsplit : T - j = (T - (j + 1)) + 1 := by omega
      rw [hsplit, filterRange_skip p j _ (by simpa using hfail 0 (by omega))]
      have := ih (j + 1) (fun i hi => by
        have := hfail (i + 1) (by omega)
        simpa [Nat.add_assoc, Nat.add_comm 1 i] using this)
      rw [this, show j + 1 + n = j + (n + 1) from by omega]
    · have h1 : T - j = 0 := by omega
      have h2 : T - (j + (n + 1)) = 0 := by omega
      rw [h1, h2]
      rfl

/-- Main loop/specification correspondence: entered at day-offset `j` with
the count equal to `j`'s position in the (work + off)-day cycle, the loop
appends exactly the work-phase dates from offset `j` on.  The two emod
facts used throughout: a loop entry always has cycle position at most
`countWorkDays`, and positions advance by one per emitted day and reset to
zero after a skip. -/
theorem workLoop_spec (s e W off : Int) (hW : 1 ≤ W) (hoff : 1 ≤ off) :
    ∀ (fuel : Nat) (j : Nat) (acc : List String),
      (j : Int) % (W + off) ≤ W →
      ((e - s + 1).toNat - j) + 1 ≤ fuel →
      workLoop (e * msPerDay) W (msPerDay * off) fuel ((s + (j : Int)) * msPerDay)
          ((j : Int) % (W + off)) acc
        = some (acc ++
            ((List.range' j ((e - s + 1).toNat - j)).filter
              (fun (k : Nat) => decide ((k : Int) % (W + off) < W))).map
              (fun (k : Nat) => scheduleDateString ((s + (k : Int)) * msPerDay))) := by
  have hms : msPerDay = 86400000 := rfl
  have hcyc : 0 < W + off := by omega
  intro fuel
  induction fuel with
  | zero => intro j acc hinv hfuel; omega
  | succ f ih =>
    intro j acc hinv hfuel
    simp only [workLoop]
    by_cases hend : (s + (j : Int)) * msPerDay ≤ e * msPerDay
    · have hjT : j < (e - s + 1).toNat := by rw [hms] at hend; omega
      rw [if_pos hend]
      have hqr := Int.ediv_add_emod (j : Int) (W + off)
      by_cases hcnt : (j : Int) % (W + off) = W
      · -- skip branch: jump over the off-block
        rw [if_pos hcnt]
        have hoffN : ((off.toNat : Nat) : Int) = off := Int.toNat_of_nonneg (by omega)
        -- no position in [j, j + off) is a work position
        have hfail : ∀ i : Nat, i < off.toNat →
            (fun (k : Nat) => decide ((k : Int) % (W + off) < W)) (j + i) = false := by
          intro i hi
          have hiI : (i : Int) < off := by omega
          have hji : ((j + i : Nat) : Int) = (W + (i : Int)) + (W + off) * ((j : Int) / (W + off)) := by
            push_cast
            rw [hcnt] at hqr
            linarith
          have hmod : ((j + i : Nat) : Int) % (W + off) = W + (i : Int) := by
            rw [hji, Int.add_mul_emod_self_left]
            exact Int.emod_eq_of_lt (by omega) (by omega)
          simp only [decide_eq_false_iff_not, not_lt, hmod]
          omega
        rw [filterRange_skipBlock _ _ off.toNat j hfail]
        have hmod0 : ((j + off.toNat : Nat) : Int) % (W + off) = 0 := by
          have hj2 : ((j + off.toNat : Nat) : Int) = (W + off) * ((j : Int) / (W + off) + 1) := by
            push_cast
            rw [hoffN]
            rw [hcnt] at hqr
            linear_combination -hqr
          rw [hj2]
          exact Int.mul_emod_right _ _
        have harith : (s + (j : Int)) * msPerDay + msPerDay * off
            = (s + ((j + off.toNat : Nat) : Int)) * msPerDay := by
          push_cast
          rw [hoffN]
          ring
        rw [harith]
        have h0 := ih (j + off.toNat) acc (by rw [hmod0]; omega) (by omega)
        rw [hmod0] at h0
        exact h0
      · -- emit branch
        rw [if_neg hcnt]
        have hlt : (j : Int) % (W + off) < W := lt_of_le_of_ne hinv hcnt
        have hmodpos : 0 ≤ (j : Int) % (W + off) :=
          Int.emod_nonneg _ (by omega)
        have hmod1 : ((j + 1 : Nat) : Int) % (W + off) = (j : Int) % (W + off) + 1 := by
          have hj1 : ((j + 1 : Nat) : Int)
              = ((j : Int) % (W + off) + 1) + (W + off) * ((j : Int) / (W + off)) := by
            push_cast
            linarith
          rw [hj1, Int.add_mul_emod_self_left]
          exact Int.emod_eq_of_lt (by omega) (by omega)
        have harith : (s + (j : Int)) * msPerDay + msPerDay
            = (s + ((j + 1 : Nat) : Int)) * msPerDay := by
          push_cast
          ring
        rw [harith]
        have h0 := ih (j + 1) (acc ++ [scheduleDateString ((s + (j : Int)) * msPerDay)])
          (by rw [hmod1]; omega) (by omega)
        rw [hmod1] at h0
        rw [h0]
        have hsplit : (e - s + 1).toNat - j = ((e - s + 1).toNat - (j + 1)) + 1 := by omega
        rw [hsplit, filterRange_cons _ j _ (by simp only [decide_eq_true_eq]; exact hlt)]
        simp [List.append_assoc]
    · have hjT : (e - s + 1).toNat ≤ j := by rw [hms] at hend; omega
      rw [if_neg hend]
      have : (e - s + 1).toNat - j = 0 := by omega
      rw [this]
      simp [List.range']

/-! ### Claims C5, C6 and C10: the work schedule -/

/-- C5: for every period whose `DD-MM-YYYY` bounds parse to days `s ≤ e` (or
any bounds at all) and every `countWorkDays ≥ 1`, `countOffDays ≥ 1`,
`getWorkSchedule` emits exactly the dates of the repeating
work-then-off cycle that starts at the period's first day and stops once the
running date exceeds the period's end - the `workScheduleSpec` list.  The
stated example instance is the witness below. -/
theorem C5_schedule_follows_cycle (p : Period) (W off s e : Int)
    (hs : parsePeriodDate p.start = some (s * msPerDay))
    (he : parsePeriodDate p.stop = some (e * msPerDay))
    (hW : 1 ≤ W) (hoff : 1 ≤ off) :
    getWorkSchedule p W off ((e - s + 1).toNat + 1)
      = some (workScheduleSpec s e W off) := by
  unfold getWorkSchedule
  rw [hs, he]
  show workLoop (e * msPerDay) W (msPerDay * off) ((e - s + 1).toNat + 1)
      (s * msPerDay) 0 [] = some (workScheduleSpec s e W off)
  have h0 := workLoop_spec s e W off hW hoff ((e - s + 1).toNat + 1) 0 []
    (by simp [Int.emod_nonneg]; omega) (by omega)
  simp only [Nat.cast_zero, Int.zero_emod, add_zero, Nat.sub_zero, List.nil_append] at h0
  rw [h0]
  unfold workScheduleSpec
  rw [List.range_eq_range']

/-- Witness for C5: the example from the claim. -/
theorem C5_schedule_follows_cycle_witness :
    getWorkSchedule ⟨"01-01-2024", "15-01-2024"⟩ 1 3 16 =
      some ["01-01-2024", "05-01-2024", "09-01-2024", "13-01-2024"] := by
  have h := C5_schedule_follows_cycle ⟨"01-01-2024", "15-01-2024"⟩ 1 3 19723 19737
    (by decide) (by decide) (by norm_num) (by norm_num)
  have hfuel : ((19737 - 19723 + 1 : Int).toNat + 1) = 16 := by decide
  rw [hfuel] at h
  rw [h]
  decide

/-- C6 counterexample: with the non-positive `countWorkDays = 0` the call is
not rejected - it returns the (empty) schedule normally. -/
theorem C6_no_validation_returns_schedule :
    getWorkSchedule ⟨"01-01-2024", "15-01-2024"⟩ 0 3 40 = some [] := by decide

/-- C6 (amended): `getWorkSchedule` performs no validation of its day counts
and never surfaces an error; in particular for `countWorkDays = 0` (with
`countOffDays ≥ 1`) the loop skips through the whole period and returns the
empty schedule as an ordinary value. -/
theorem C6_amended_zero_workdays (p : Period) (off startMs endMs : Int)
    (hs : parsePeriodDate p.start = some startMs)
    (he : parsePeriodDate p.stop = some endMs)
    (hoff : 1 ≤ off) :
    getWorkSchedule p 0 off (((endMs - startMs) / msPerDay + 1).toNat + 1)
      = some [] := by
  unfold getWorkSchedule
  rw [hs, he]
  apply workLoop_zeroW endMs (msPerDay * off)
    (le_mul_of_one_le_right (by norm_num [msPerDay]) hoff)
    ((endMs - startMs) / msPerDay + 1).toNat _ startMs [] (by omega)
  have hms : msPerDay = 86400000 := rfl
  rw [hms]
  omega

/-- Witness for C6. -/
theorem C6_amended_zero_workdays_witness :
    getWorkSchedule ⟨"01-01-2024", "15-01-2024"⟩ 0 3 16 = some [] := by
  have h := C6_amended_zero_workdays ⟨"01-01-2024", "15-01-2024"⟩ 3
    (19723 * 86400000) (19737 * 86400000) (by decide) (by decide) (by norm_num)
  have hfuel : ((19737 * 86400000 - 19723 * 86400000 : Int) / msPerDay + 1).toNat + 1 = 16 := by
    decide
  rw [hfuel] at h
  exact h

/-- C10: for every parseable period and `countWorkDays ≥ 1`,
`countOffDays ≥ 1`, the schedule loop terminates: some finite fuel (one more
than the number of days in the period) makes it return an array. -/
theorem C10_schedule_terminates (p : Period) (W off startMs endMs : Int)
    (hs : parsePeriodDate p.start = some startMs)
    (he : parsePeriodDate p.stop = some endMs)
    (_hW : 1 ≤ W) (hoff : 1 ≤ off) :
    ∃ (fuel : Nat) (r : List String), getWorkSchedule p W off fuel = some r := by
  refine ⟨((endMs - startMs) / msPerDay + 1).toNat + 1, ?_⟩
  unfold getWorkSchedule
  rw [hs, he]
  apply workLoop_term endMs W (msPerDay * off)
    (le_mul_of_one_le_right (by norm_num [msPerDay]) hoff)
    ((endMs - startMs) / msPerDay + 1).toNat _ startMs 0 [] (by omega)
  have hms : msPerDay = 86400000 := rfl
  rw [hms]
  omega

/-- Witness for C10. -/
theorem C10_schedule_terminates_witness :
    ∃ (fuel : Nat) (r : List String),
      getWorkSchedule ⟨"01-01-2024", "15-01-2024"⟩ 2 2 fuel = some r :=
  C10_schedule_terminates ⟨"01-01-2024", "15-01-2024"⟩ 2 2
    (19723 * 86400000) (19737 * 86400000) (by decide) (by decide)
    (by norm_num) (by norm_num)

/-! ### Claim C7: `formatDate` -/

/-- The source rendering of an instant coincides with the reference
rendering `renderUS` (whose hour mapping keeps hour 0 as `0`). -/
theorem formatDateMs_renderUS (t : Int) : formatDateMs t = renderUS t := by
  simp only [formatDateMs, renderUS, pad2, jsGetUTCDate, jsGetUTCMonth, jsGetUTCFullYear,
    jsGetUTCHours, jsGetMinutes, jsGetSeconds, localMs, tzOffsetMinutes, zero_mul, add_zero]
  rw [show (if 12 ≤ t / 3600000 % 24 then
        (if 12 < t / 3600000 % 24 then t / 3600000 % 24 - 12 else t / 3600000 % 24)
      else t / 3600000 % 24)
      = (if t / 3600000 % 24 ≤ 12 then t / 3600000 % 24 else t / 3600000 % 24 - 12) from by
    split_ifs <;> omega]
  rw [show (if 12 ≤ t / 3600000 % 24 then "PM" else "AM")
      = (if t / 3600000 % 24 < 12 then "AM" else "PM") from by
    split_ifs <;> first | rfl | omega]
  rw [Int.sub_add_cancel]

/-- C7 counterexample: the claim says UTC hour 0 renders as 12; the code
renders midnight-hour instants with hour `0`. -/
theorem C7_midnight_renders_zero :
    formatDate "2024-02-01T00:20:00.000Z" = some "2/1/2024, 0:20:00 AM" ∧
      ("2/1/2024, 0:20:00 AM" : String) ≠ "2/1/2024, 12:20:00 AM" := by decide

/-- C7 (amended): for every parseable input, `formatDate` renders
`M/D/YYYY, h:mm:ss AM|PM` with unpadded UTC month and day, zero-padded
minutes and seconds of the same UTC instant, and a 12-hour hour in which
hours 13-23 are reduced by 12, noon is 12 PM, and UTC hour 0 renders as 0
(not 12). -/
theorem C7_formatUS_renders (s : String) (t : Int)
    (h : jsDateParse s = JSNumber.num t) :
    formatDate s = some (renderUS t) := by
  unfold formatDate
  rw [h]
  show some (formatDateMs t) = some (renderUS t)
  rw [formatDateMs_renderUS]

/-- Witness for C7 on the doc example `2024-02-01T15:00:00.000Z`. -/
theorem C7_formatUS_renders_witness :
    formatDate "2024-02-01T15:00:00.000Z" = some (renderUS 1706799600000) :=
  C7_formatUS_renders "2024-02-01T15:00:00.000Z" 1706799600000 (by decide)

/-! ### Claim C4: next Friday the 13th -/

/-- Every Gregorian month has at least 13 days. -/
theorem thirteen_le_daysInMonthGregorian (y m : Int) : 13 ≤ daysInMonthGregorian y m := by
  unfold daysInMonthGregorian
  split_ifs <;> norm_num

/-- `MakeDay` normalization never rolls a 13th over. -/
theorem normCivil_13 (y mIdx : Int) :
    normCivil y mIdx 13 = ⟨(12 * y + mIdx) / 12, (12 * y + mIdx) % 12 + 1, 13⟩ := by
  simp only [normCivil]
  rw [if_pos (thirteen_le_daysInMonthGregorian _ _)]

/-- `setDate(13)` on a valid date keeps year and month. -/
theorem setDateCivil_13 (c : Civil) (h1 : 1 ≤ c.m) (h2 : c.m ≤ 12) :
    setDateCivil c 13 = ⟨c.y, c.m, 13⟩ := by
  unfold setDateCivil
  rw [normCivil_13]
  have hdiv : (12 * c.y + (c.m - 1)) / 12 = c.y := by omega
  have hmod : (12 * c.y + (c.m - 1)) % 12 + 1 = c.m := by omega
  rw [hdiv, hmod]

/-- The search step `setMonth(getMonth() + 1)` from a 13th moves to the 13th
of the following month. -/
theorem setMonthCivil_from13 (c : Civil) (hd : c.d = 13) (_h1 : 1 ≤ c.m) (_h2 : c.m ≤ 12) :
    setMonthCivil c ((c.m - 1) + 1)
      = ⟨c.y + c.m / 12, c.m % 12 + 1, 13⟩ := by
  unfold setMonthCivil
  rw [hd, show (c.m - 1) + 1 = c.m from by ring, normCivil_13]
  have hdiv : (12 * c.y + c.m) / 12 = c.y + c.m / 12 := by omega
  rw [hdiv, show (12 * c.y + c.m) % 12 = c.m % 12 from by omega]

/-- The month-index bounds of a `MakeDay` normalization (month index between
0 and 12, any day). -/
theorem normCivil_m_bounds (y mIdx d : Int) :
    1 ≤ (normCivil y mIdx d).m ∧ (normCivil y mIdx d).m ≤ 12 := by
  simp only [normCivil]
  split_ifs with hfit h12 <;> simp <;> omega

/-- Weekday of the 13th, through the month-sequence index. -/
theorem month13Weekday_getDay (y m : Int) (h1 : 1 ≤ m) (h2 : m ≤ 12) :
    month13Weekday (12 * y + (m - 1)) = getDayCivil ⟨y, m, 13⟩ := by
  unfold month13Weekday getDayCivil
  have hdiv : (12 * y + (m - 1)) / 12 = y := by omega
  have hmod : (12 * y + (m - 1)) % 12 + 1 = m := by omega
  rw [hdiv, hmod]

/-- 400-year periodicity of the weekday of the 13th. -/
theorem month13Weekday_add_4800 (μ n : Int) :
    month13Weekday (μ + 4800 * n) = month13Weekday μ := by
  unfold month13Weekday
  have hdiv : (μ + 4800 * n) / 12 = μ / 12 + 400 * n := by omega
  have hmod : (μ + 4800 * n) % 12 = μ % 12 := by omega
  rw [hdiv, hmod, daysFromCivil_add_400, weekdayOfDay_add_146097]

set_option maxRecDepth 100000 in
set_option maxHeartbeats 12000000 in
/-- Ground fact, checked (in fast `Nat` arithmetic) over the 400-year cycle
[400, 800): every year contains at least one Friday the 13th. -/
theorem friday13Base : ∀ r : Nat, r < 400 →
    ((List.range 12).any
      (fun mi => (dayIndexNat (400 + r) (mi + 1) 13 + 3) % 7 == 5)) = true := by
  decide

/-- The weekday of the 13th through the `Nat` day index: day 0 of the index
is a Wednesday (719468 ≡ 1 mod 7). -/
theorem month13Weekday_natBridge (yN mN : Nat) (hy : 1 ≤ yN) (hm1 : 1 ≤ mN) (hm2 : mN ≤ 12) :
    month13Weekday (12 * (yN : Int) + ((mN : Int) - 1))
      = (((dayIndexNat yN mN 13 + 3) % 7 : Nat) : Int) := by
  unfold month13Weekday weekdayOfDay
  rw [show (12 * (yN : Int) + ((mN : Int) - 1)) / 12 = (yN : Int) from by omega,
      show (12 * (yN : Int) + ((mN : Int) - 1)) % 12 + 1 = (mN : Int) from by omega]
  have hbr := dayIndexNat_eq yN mN 13 hy hm1 hm2 (by norm_num)
  norm_num at hbr
  omega

/-- From any month onward, a Friday the 13th occurs within 24 months. -/
theorem friday13_within24 (μ : Int) :
    ∃ k : Nat, k < 24 ∧ month13Weekday (μ + (k : Int)) = 5 := by
  set y1 := μ / 12 + 1 with hy1
  obtain ⟨r, n, hrn, hr0, hr400⟩ : ∃ r n : Int, y1 = (400 + r) + 400 * n ∧ 0 ≤ r ∧ r < 400 :=
    ⟨y1 % 400, y1 / 400 - 1, by omega, by omega, by omega⟩
  have hbase := friday13Base r.toNat (by omega)
  rw [List.any_eq_true] at hbase
  obtain ⟨mi, hmem, hf⟩ := hbase
  rw [List.mem_range] at hmem
  rw [beq_iff_eq] at hf
  have hwin : month13Weekday (12 * ((400 + r.toNat : Nat) : Int) + (((mi + 1 : Nat) : Int) - 1))
      = (((dayIndexNat (400 + r.toNat) (mi + 1) 13 + 3) % 7 : Nat) : Int) :=
    month13Weekday_natBridge (400 + r.toNat) (mi + 1) (by omega) (by omega) (by omega)
  have hwin5 : month13Weekday (12 * (400 + r) + (mi : Int)) = 5 := by
    rw [show 12 * (400 + r) + (mi : Int)
        = 12 * ((400 + r.toNat : Nat) : Int) + (((mi + 1 : Nat) : Int) - 1) from by omega,
      hwin, hf]
    norm_num
  have hlift : month13Weekday (12 * y1 + (mi : Int)) = 5 := by
    have heq : 12 * y1 + (mi : Int) = (12 * (400 + r) + (mi : Int)) + 4800 * n := by omega
    rw [heq, month13Weekday_add_4800]
    exact hwin5
  refine ⟨(12 * y1 + (mi : Int) - μ).toNat, by omega, ?_⟩
  have heq2 : μ + (((12 * y1 + (mi : Int) - μ).toNat : Nat) : Int) = 12 * y1 + (mi : Int) := by
    omega
  rw [heq2]
  exact hlift

/-- Correctness of the `while (getDay() !== 5)` search: started on a 13th
with enough fuel to reach a Friday the 13th, it returns the first 13th of a
month at or after the start whose weekday is Friday. -/
theorem fridayThe13thSearch_spec :
    ∀ (fuel : Nat) (c : Civil), c.d = 13 → 1 ≤ c.m → c.m ≤ 12 →
      (∃ k : Nat, k < fuel ∧ month13Weekday (monthIndex c + (k : Int)) = 5) →
      ∃ r : Civil, fridayThe13thSearch fuel c = some r ∧ r.d = 13 ∧
        1 ≤ r.m ∧ r.m ≤ 12 ∧ getDayCivil r = 5 ∧
        monthIndex c ≤ monthIndex r ∧
        (∀ ν : Int, monthIndex c ≤ ν → ν < monthIndex r → month13Weekday ν ≠ 5) := by
  intro fuel
  induction fuel with
  | zero =>
    intro c _ _ _ hex
    obtain ⟨k, hk, _⟩ := hex
    omega
  | succ f ih =>
    intro c hd h1 h2 hex
    simp only [fridayThe13thSearch]
    by_cases hfri : getDayCivil c = 5
    · rw [if_pos hfri]
      exact ⟨c, rfl, hd, h1, h2, hfri, le_refl _, fun ν hν1 hν2 => by omega⟩
    · rw [if_neg hfri]
      have heta : c = ⟨c.y, c.m, 13⟩ := by
        cases c
        simp_all
      have hcur : month13Weekday (monthIndex c) ≠ 5 := by
        have hm := month13Weekday_getDay c.y c.m h1 h2
        rw [← heta] at hm
        unfold monthIndex
        rw [hm]
        exact hfri
      have hstep := setMonthCivil_from13 c hd h1 h2
      have hd' : (setMonthCivil c ((c.m - 1) + 1)).d = 13 := by rw [hstep]
      have hm1' : 1 ≤ (setMonthCivil c ((c.m - 1) + 1)).m := by
        rw [hstep]
        show 1 ≤ c.m % 12 + 1
        omega
      have hm2' : (setMonthCivil c ((c.m - 1) + 1)).m ≤ 12 := by
        rw [hstep]
        show c.m % 12 + 1 ≤ 12
        omega
      have hidx : monthIndex (setMonthCivil c ((c.m - 1) + 1)) = monthIndex c + 1 := by
        rw [hstep]
        unfold monthIndex
        show 12 * (c.y + c.m / 12) + (c.m % 12 + 1 - 1) = 12 * c.y + (c.m - 1) + 1
        omega
      have hex' : ∃ k : Nat, k < f ∧
          month13Weekday (monthIndex (setMonthCivil c ((c.m - 1) + 1)) + (k : Int)) = 5 := by
        obtain ⟨k, hk, hp⟩ := hex
        have hk0 : k ≠ 0 := by
          rintro rfl
          apply hcur
          simpa using hp
        refine ⟨k - 1, by omega, ?_⟩
        rw [hidx]
        have : monthIndex c + 1 + ((k - 1 : Nat) : Int) = monthIndex c + (k : Int) := by
          omega
        rw [this]
        exact hp
      obtain ⟨r, hr, hrd, hrm1, hrm2, hrf, hge, hmin⟩ :=
        ih (setMonthCivil c ((c.m - 1) + 1)) hd' hm1' hm2' hex'
      refine ⟨r, hr, hrd, hrm1, hrm2, hrf, by omega, ?_⟩
      intro ν hν1 hν2
      by_cases hνc : ν = monthIndex c
      · rw [hνc]
        exact hcur
      · exact hmin ν (by omega) hν2

/-- C4 counterexample: for January 31, 2026 the claim's search would start at
"next month's 13th", February 13, 2026, which is itself a Friday; the code's
`setMonth` overflows January 31 into March 3 before setting the day, so it
returns March 13, 2026 instead. -/
theorem C4_jan31_2026_skips_february :
    getNextFridayThe13th ⟨2026, 1, 31⟩ 24 = some ⟨2026, 3, 13⟩ ∧
      getDayCivil ⟨2026, 2, 13⟩ = 5 ∧
      (⟨2026, 3, 13⟩ : Civil) ≠ ⟨2026, 2, 13⟩ := by decide

/-- C4 (amended): for every valid date, `getNextFridayThe13th` returns (with
fuel 24, i.e. the loop terminates) a date that is the 13th of its month and a
Friday - namely the first Friday-bearing 13th at or after its starting
point, which is the current month's 13th when the day of month is at most
13, and otherwise the 13th of the month reached by `setMonth(month + 1)`
with ECMAScript day-overflow normalization (for day 29-31 this may roll one
month further than "next month"). -/
theorem C4_nextFridayThe13th_search (date : Civil)
    (h1 : 1 ≤ date.m) (h2 : date.m ≤ 12) (_h3 : 1 ≤ date.d)
    (_h4 : date.d ≤ daysInMonthGregorian date.y date.m) :
    ∃ r : Civil, getNextFridayThe13th date 24 = some r ∧ r.d = 13 ∧
      getDayCivil r = 5 ∧
      monthIndex (setDateCivil
        (if 13 < date.d then setMonthCivil date ((date.m - 1) + 1) else date) 13)
        ≤ monthIndex r ∧
      (∀ ν : Int,
        monthIndex (setDateCivil
          (if 13 < date.d then setMonthCivil date ((date.m - 1) + 1) else date) 13) ≤ ν →
        ν < monthIndex r → month13Weekday ν ≠ 5) := by
  have hc1 : 1 ≤ (if 13 < date.d then setMonthCivil date ((date.m - 1) + 1) else date).m ∧
      (if 13 < date.d then setMonthCivil date ((date.m - 1) + 1) else date).m ≤ 12 := by
    split_ifs with hgt
    · exact normCivil_m_bounds date.y ((date.m - 1) + 1) date.d
    · exact ⟨h1, h2⟩
  set c1 := if 13 < date.d then setMonthCivil date ((date.m - 1) + 1) else date with hc1def
  have hc2 := setDateCivil_13 c1 hc1.1 hc1.2
  have hd2 : (setDateCivil c1 13).d = 13 := by rw [hc2]
  have hm12 : 1 ≤ (setDateCivil c1 13).m := by rw [hc2]; exact hc1.1
  have hm22 : (setDateCivil c1 13).m ≤ 12 := by rw [hc2]; exact hc1.2
  have hex := friday13_within24 (monthIndex (setDateCivil c1 13))
  obtain ⟨r, hr, hrd, _, _, hrf, hge, hmin⟩ :=
    fridayThe13thSearch_spec 24 (setDateCivil c1 13) hd2 hm12 hm22 hex
  refine ⟨r, ?_, hrd, hrf, hge, hmin⟩
  unfold getNextFridayThe13th
  exact hr

/-- Witness for C4 on the doc example `Date(2024, 0, 13)`. -/
theorem C4_nextFridayThe13th_search_witness :
    ∃ r : Civil, getNextFridayThe13th ⟨2024, 1, 13⟩ 24 = some r ∧ r.d = 13 ∧
      getDayCivil r = 5 ∧
      monthIndex (setDateCivil
        (if 13 < (13 : Int) then setMonthCivil ⟨2024, 1, 13⟩ ((1 - 1) + 1)
         else ⟨2024, 1, 13⟩) 13) ≤ monthIndex r ∧
      (∀ ν : Int,
        monthIndex (setDateCivil
          (if 13 < (13 : Int) then setMonthCivil ⟨2024, 1, 13⟩ ((1 - 1) + 1)
           else ⟨2024, 1, 13⟩) 13) ≤ ν →
        ν < monthIndex r → month13Weekday ν ≠ 5) :=
  C4_nextFridayThe13th_search ⟨2024, 1, 13⟩ (by norm_num) (by norm_num) (by norm_num)
    (by decide)
